import Mathlib

/-!
Shallow embedding of `csv2httproute` (src/main.go): the data model
(HTTPRoute and friends), the endpoint collector, and the rule generator
of `processCSV`, together with theorems checking the specification.
-/

namespace Csv2HttpRoute

/-- One routing intent, from one CSV data row (`Endpoint` in main.go).
The Go field `Prefix` is named `pfx` here. -/
structure Endpoint where
  method : String
  url : String
  pfx : String
  comment : String
deriving Repr, DecidableEq

/-- Backend target descriptor (`BackendRef` in main.go). -/
structure BackendRef where
  group : String
  kind : String
  name : String
  ns : String
  port : Int
  weight : Int
deriving Repr, DecidableEq

/-- Path match (`HTTPPathMatch` in main.go). -/
structure HTTPPathMatch where
  type : String
  value : String
deriving Repr, DecidableEq

/-- One match entry (`HTTPRouteMatch` in main.go). -/
structure HTTPRouteMatch where
  path : Option HTTPPathMatch
  method : String
deriving Repr, DecidableEq

/-- Path rewrite descriptor (`PathRewrite` in main.go). -/
structure PathRewrite where
  type : String
  replacePrefixMatch : String
deriving Repr, DecidableEq

/-- URL rewrite filter body (`URLRewriteFilter` in main.go). -/
structure URLRewriteFilter where
  path : Option PathRewrite
deriving Repr, DecidableEq

/-- One filter (`HTTPRouteFilter` in main.go). -/
structure HTTPRouteFilter where
  type : String
  urlRewrite : Option URLRewriteFilter
deriving Repr, DecidableEq

/-- One routing rule (`HTTPRouteRule` in main.go); the Go field
`Matches` is named `matchList` because `matches` is reserved. -/
structure HTTPRouteRule where
  matchList : List HTTPRouteMatch
  filters : List HTTPRouteFilter
  backendRefs : List BackendRef
deriving Repr, DecidableEq

/-- Parent reference (`ParentRef` in main.go). -/
structure ParentRef where
  group : String
  kind : String
  name : String
  ns : String
deriving Repr, DecidableEq

/-- Resource metadata (`Metadata` in main.go); labels are never set. -/
structure Metadata where
  name : String
  ns : String
deriving Repr, DecidableEq

/-- `HTTPRouteSpec` in main.go.  A `nil` Go slice is the empty list; the
yaml tag `hostnames,omitempty` omits the field when the list is empty. -/
structure HTTPRouteSpec where
  parentRefs : List ParentRef
  hostnames : List String
  rules : List HTTPRouteRule
deriving Repr, DecidableEq

/-- The full output resource (`HTTPRoute` in main.go). -/
structure HTTPRoute where
  apiVersion : String
  kind : String
  metadata : Metadata
  spec : HTTPRouteSpec
deriving Repr, DecidableEq

/-- The run-wide configuration flags read by `processCSV`
(serviceName, servicePort, serviceNamespace, gatewayName,
gatewayNamespace, namespace, hostname in main.go). -/
structure Config where
  serviceName : String
  servicePort : Int
  serviceNamespace : String
  gatewayName : String
  gatewayNamespace : String
  ns : String
  hostname : String
deriving Repr, DecidableEq

/-- Go's ASCII whitespace class used by `strings.TrimSpace`:
space and the control characters `\t` through `\r` (9-13). -/
def isSpaceChar (c : Char) : Bool := c.toNat = 32 || (9 ≤ c.toNat && c.toNat ≤ 13)

/-- `strings.TrimSpace`, modelled structurally over the character list
so that it evaluates in the kernel. -/
def trimString (s : String) : String :=
  ⟨((s.data.dropWhile isSpaceChar).reverse.dropWhile isSpaceChar).reverse⟩

/-- ASCII lower-casing of one character. -/
def lowerChar (c : Char) : Char :=
  if 65 ≤ c.toNat ∧ c.toNat ≤ 90 then Char.ofNat (c.toNat + 32) else c

/-- ASCII upper-casing of one character. -/
def upperChar (c : Char) : Char :=
  if 97 ≤ c.toNat ∧ c.toNat ≤ 122 then Char.ofNat (c.toNat - 32) else c

/-- `strings.ToLower` (the inputs of interest are ASCII). -/
def toLowerString (s : String) : String := ⟨s.data.map lowerChar⟩

/-- `strings.ToUpper` (the inputs of interest are ASCII). -/
def toUpperString (s : String) : String := ⟨s.data.map upperChar⟩

/-- `strings.HasPrefix`. -/
def startsWithString (s p : String) : Bool := p.data.isPrefixOf s.data

/-- `strings.HasSuffix`. -/
def endsWithString (s p : String) : Bool := p.data.isSuffixOf s.data

/-- Drop the last `n` characters. -/
def dropRightString (s : String) (n : Nat) : String :=
  ⟨s.data.take (s.data.length - n)⟩

/-- The left-to-right non-overlapping replacement scan of
`strings.ReplaceAll`, fuelled by the input length so the recursion is
structural (the fuel never runs out when it starts at the length and
the pattern is non-empty, as at every call site here). -/
def replaceGo (old new : List Char) : Nat → List Char → List Char
  | _, [] => []
  | 0, l => l
  | fuel + 1, c :: rest =>
    if old ≠ [] ∧ old.isPrefixOf (c :: rest) then
      new ++ replaceGo old new fuel ((c :: rest).drop old.length)
    else c :: replaceGo old new fuel rest

/-- `strings.ReplaceAll` for a non-empty pattern. -/
def replaceString (s old new : String) : String :=
  ⟨replaceGo old.data new.data s.data.length s.data⟩

/-- `strings.ToLower(strings.TrimSpace(h))`, the header-name
normalization at main.go:180. -/
def normCol (s : String) : String := toLowerString (trimString s)

/-- The loop body of the header-map construction at main.go:179-181:
each `headerMap[normCol h] = i` insertion overwrites any earlier one, so
a later column with the same normalized name wins. -/
def headerIdxAux (key : String) : Option Nat → Nat → List String → Option Nat
  | acc, _, [] => acc
  | acc, i, h :: t => headerIdxAux key (if normCol h = key then some i else acc) (i + 1) t

/-- Lookup of `key` in the header map built at main.go:178-181. -/
def headerIdx (header : List String) (key : String) : Option Nat :=
  headerIdxAux key none 0 header

/-- The per-column read of `parseRecord` (main.go:332-347): the field is
taken, trimmed, from the mapped index when it is in range, and is the
empty string otherwise (missing column or short row). -/
def fieldAt (header record : List String) (key : String) : String :=
  match headerIdx header key with
  | some idx => if idx < record.length then trimString (record.getD idx "") else ""
  | none => ""

/-- `parseRecord` (main.go:332-347). -/
def parseRecord (header record : List String) : Endpoint :=
  { method := fieldAt header record "method"
    url := fieldAt header record "url"
    pfx := fieldAt header record "prefix"
    comment := fieldAt header record "comment" }

/-- The collection loop of `processCSV` (main.go:184-202): skip empty
records and records whose first field, trimmed, starts with `#`; parse
the rest; drop endpoints whose url is empty. -/
def collectEndpoints (header : List String) (rows : List (List String)) : List Endpoint :=
  rows.filterMap (fun record =>
    if record.length = 0 ∨
        (0 < record.length ∧ startsWithString (trimString (record.headD "")) "#") then
      none
    else
      let e := parseRecord header record
      if e.url = "" then none else some e)

/-- `strings.TrimSuffix`. -/
def trimSuffix (s suffix : String) : String :=
  if endsWithString s suffix then dropRightString s suffix.data.length else s

/-- Resource-name derivation at main.go:208-211: trim the `.csv`
suffix from the base name, delete every occurrence of `"endpoints-"`,
and replace every underscore with a hyphen. -/
def resourceNameOfBase (base : String) : String :=
  replaceString (replaceString (trimSuffix base ".csv") "endpoints-" "") "_" "-"

/-- The accumulator step of the first-seen ordering of distinct
non-empty `pfx` values (main.go:245-252): a non-empty `pfx` not yet in
the `prefixes` slice is appended to it. -/
def addPfx (acc : List String) (e : Endpoint) : List String :=
  if e.pfx ≠ "" ∧ e.pfx ∉ acc then acc ++ [e.pfx] else acc

/-- The `prefixes` slice of main.go:241-252: the distinct non-empty
`pfx` values in first-seen order. -/
def firstSeenPfxs (endpoints : List Endpoint) : List String :=
  endpoints.foldl addPfx []

/-- The single backend reference attached to every rule
(main.go:277-286 and main.go:293-302). -/
def mkBackend (cfg : Config) : BackendRef :=
  { group := ""
    kind := "Service"
    name := cfg.serviceName
    ns := cfg.serviceNamespace
    port := cfg.servicePort
    weight := 1 }

/-- `rule1` of main.go:255-288: one rewrite rule per distinct `pfx`
value. -/
def rewriteRule (cfg : Config) (p : String) : HTTPRouteRule :=
  { matchList := [{ path := some { type := "PathPrefix", value := p }, method := "" }]
    filters := [{ type := "URLRewrite"
                  urlRewrite := some { path := some { type := "ReplacePrefixMatch"
                                                      replacePrefixMatch := "/" } } }]
    backendRefs := [mkBackend cfg] }

/-- `rule2` of main.go:291-313: the trailing catch-all rule with one
match per collected endpoint, in original order. -/
def catchAllRule (cfg : Config) (endpoints : List Endpoint) : HTTPRouteRule :=
  { matchList := endpoints.map (fun e =>
      { path := some { type := "PathPrefix", value := e.url }
        method := toUpperString e.method })
    filters := []
    backendRefs := [mkBackend cfg] }

/-- The rule sequence built at main.go:241-313. -/
def generateRules (cfg : Config) (endpoints : List Endpoint) : List HTTPRouteRule :=
  (firstSeenPfxs endpoints).map (rewriteRule cfg) ++ [catchAllRule cfg endpoints]

/-- The resource assembly of main.go:213-239 plus the rules of
main.go:241-313. -/
def assembleRoute (cfg : Config) (resourceName : String) (endpoints : List Endpoint) :
    HTTPRoute :=
  let effectiveGatewayNamespace :=
    if cfg.gatewayNamespace = "" then cfg.ns else cfg.gatewayNamespace
  { apiVersion := "gateway.networking.k8s.io/v1"
    kind := "HTTPRoute"
    metadata := { name := resourceName, ns := cfg.ns }
    spec := { parentRefs := [{ group := "gateway.networking.k8s.io"
                               kind := "Gateway"
                               name := cfg.gatewayName
                               ns := effectiveGatewayNamespace }]
              hostnames := if cfg.hostname = "" then [] else [cfg.hostname]
              rules := generateRules cfg endpoints } }

/-- The pure core of `processCSV` (main.go:163-330) after the CSV
reader has tokenized the file into a header row and data rows: `none`
means the early `return nil` at main.go:204-206 — no resource is built
and no output file is written, with no error. -/
def processCSVPure (cfg : Config) (base : String) (header : List String)
    (rows : List (List String)) : Option HTTPRoute :=
  let endpoints := collectEndpoints header rows
  if endpoints.length = 0 then none
  else some (assembleRoute cfg (resourceNameOfBase base) endpoints)

/-- The yaml tag `hostnames,omitempty` (main.go:31): the field is
omitted from the serialized document exactly when the slice is empty. -/
def hostnamesOmitted (r : HTTPRoute) : Bool := r.spec.hostnames.isEmpty

/-- Specification-side first-seen deduplication: keep the first
occurrence of each value, in order of first appearance. -/
def dedupFirst : List String → List String
  | [] => []
  | a :: l => a :: dedupFirst (l.filter (fun x => x ≠ a))
termination_by l => l.length
decreasing_by
  simp only [List.length_cons]
  exact Nat.lt_succ_of_le (List.length_filter_le _ _)

/-! ### Helper lemmas -/

theorem headerIdxAux_append (key : String) (t1 t2 : List String) :
    ∀ (acc : Option Nat) (i : Nat),
      headerIdxAux key acc i (t1 ++ t2) =
        headerIdxAux key (headerIdxAux key acc i t1) (i + t1.length) t2 := by
  induction t1 with
  | nil => intro acc i; simp [headerIdxAux]
  | cons h t ih =>
    intro acc i
    have l1 : headerIdxAux key acc i ((h :: t) ++ t2) =
        headerIdxAux key (if normCol h = key then some i else acc) (i + 1) (t ++ t2) := rfl
    have l2 : headerIdxAux key acc i (h :: t) =
        headerIdxAux key (if normCol h = key then some i else acc) (i + 1) t := rfl
    have harith : i + 1 + t.length = i + (h :: t).length := by
      simp only [List.length_cons]
      omega
    rw [l1, l2, ih, harith]

theorem headerIdxAux_nomatch (key : String) (t : List String)
    (h : ∀ x ∈ t, normCol x ≠ key) :
    ∀ (acc : Option Nat) (i : Nat), headerIdxAux key acc i t = acc := by
  induction t with
  | nil => intro acc i; rfl
  | cons a t ih =>
    intro acc i
    simp only [headerIdxAux]
    rw [if_neg (h a (by simp))]
    exact ih (fun x hx => h x (by simp [hx])) acc (i + 1)

theorem mem_dedupFirst (x : String) : ∀ l : List String, x ∈ dedupFirst l ↔ x ∈ l := by
  intro l
  induction l using dedupFirst.induct with
  | case1 => simp [dedupFirst]
  | case2 a l ih =>
    rw [dedupFirst]
    rw [List.mem_cons, ih, List.mem_filter]
    by_cases hxa : x = a <;> simp [hxa]

theorem nodup_dedupFirst : ∀ l : List String, (dedupFirst l).Nodup := by
  intro l
  induction l using dedupFirst.induct with
  | case1 => simp [dedupFirst]
  | case2 a l ih =>
    rw [dedupFirst]
    refine List.nodup_cons.mpr ⟨?_, ih⟩
    intro hmem
    rw [mem_dedupFirst] at hmem
    simp [List.mem_filter] at hmem

theorem filter_notMem_concat (M acc : List String) (p : String) :
    M.filter (fun x => x ∉ acc ++ [p]) =
      (M.filter (fun x => x ∉ acc)).filter (fun x => x ≠ p) := by
  rw [List.filter_filter]
  apply List.filter_congr
  intro x _
  by_cases h1 : x = p <;> by_cases h2 : x ∈ acc <;> simp [h1, h2, List.mem_append]

theorem foldl_addPfx (E : List Endpoint) : ∀ acc : List String,
    E.foldl addPfx acc =
      acc ++ dedupFirst (((E.map Endpoint.pfx).filter (fun p => p ≠ "")).filter
        (fun p => p ∉ acc)) := by
  induction E with
  | nil => intro acc; simp [dedupFirst]
  | cons e E ih =>
    intro acc
    by_cases h1 : e.pfx = ""
    · simpa [addPfx, h1, List.filter_cons] using ih acc
    · by_cases h2 : e.pfx ∈ acc
      · simpa [addPfx, h1, h2, List.filter_cons] using ih acc
      · have step : addPfx acc e = acc ++ [e.pfx] := by simp [addPfx, h1, h2]
        rw [List.foldl_cons, step, ih (acc ++ [e.pfx]), filter_notMem_concat]
        rw [List.map_cons]
        rw [List.filter_cons_of_pos (by simp [h1]), List.filter_cons_of_pos (by simp [h2])]
        rw [dedupFirst]
        simp [List.append_assoc]

theorem firstSeenPfxs_eq_dedupFirst (E : List Endpoint) :
    firstSeenPfxs E = dedupFirst ((E.map Endpoint.pfx).filter (fun p => p ≠ "")) := by
  have h := foldl_addPfx E []
  simpa [firstSeenPfxs, List.filter_true] using h

theorem parseRecord_nil_url (header : List String) : (parseRecord header []).url = "" := by
  show fieldAt header [] "url" = ""
  cases h : headerIdx header "url" with
  | none => simp [fieldAt, h]
  | some idx => simp [fieldAt, h]

theorem collect_single (header record : List String) :
    collectEndpoints header [record] =
      if record.length = 0 ∨ (0 < record.length ∧
          startsWithString (trimString (record.headD "")) "#" = true) then []
      else if (parseRecord header record).url = "" then []
      else [parseRecord header record] := by
  by_cases h1 : record.length = 0 ∨ (0 < record.length ∧
      startsWithString (trimString (record.headD "")) "#" = true)
  · simp only [collectEndpoints, List.filterMap_cons, List.filterMap_nil]
    rw [if_pos h1, if_pos h1]
  · by_cases h2 : (parseRecord header record).url = ""
    · simp only [collectEndpoints, List.filterMap_cons, List.filterMap_nil]
      rw [if_neg h1, if_neg h1, if_pos h2, if_pos h2]
    · simp only [collectEndpoints, List.filterMap_cons, List.filterMap_nil]
      rw [if_neg h1, if_neg h1, if_neg h2, if_neg h2]

/-! ### Claim theorems -/

/-- C1: for every non-empty endpoint sequence, rule generation emits,
after all rewrite rules, exactly one catch-all rule as the last rule;
it contains exactly one match per endpoint of the original sequence in
original order (prefixed or not, duplicates not deduplicated), each a
path-prefix match on the endpoint's url with the method upper-cased. -/
theorem generateRules_catchAll_last (cfg : Config) (E : List Endpoint) (hE : E ≠ []) :
    generateRules cfg E = (generateRules cfg E).dropLast ++ [catchAllRule cfg E] ∧
    (∀ r ∈ (generateRules cfg E).dropLast, r.filters ≠ []) ∧
    (catchAllRule cfg E).filters = [] ∧
    (catchAllRule cfg E).matchList =
      E.map (fun e => { path := some { type := "PathPrefix", value := e.url }
                        method := toUpperString e.method }) ∧
    (catchAllRule cfg E).matchList.length = E.length := by
  refine ⟨?_, ?_, rfl, rfl, by simp [catchAllRule]⟩
  · rw [generateRules, List.dropLast_concat]
  · rw [generateRules, List.dropLast_concat]
    intro r hr
    obtain ⟨p, _, rfl⟩ := List.mem_map.mp hr
    simp [rewriteRule]

theorem generateRules_catchAll_last_witness :
    (([⟨"get", "/a", "", ""⟩] : List Endpoint) ≠ []) ∧
    (generateRules ⟨"s", 1, "", "g", "", "d", ""⟩ [⟨"get", "/a", "", ""⟩] =
        (generateRules ⟨"s", 1, "", "g", "", "d", ""⟩ [⟨"get", "/a", "", ""⟩]).dropLast ++
          [catchAllRule ⟨"s", 1, "", "g", "", "d", ""⟩ [⟨"get", "/a", "", ""⟩]] ∧
      (∀ r ∈ (generateRules ⟨"s", 1, "", "g", "", "d", ""⟩
          [⟨"get", "/a", "", ""⟩]).dropLast, r.filters ≠ []) ∧
      (catchAllRule ⟨"s", 1, "", "g", "", "d", ""⟩ [⟨"get", "/a", "", ""⟩]).filters = [] ∧
      (catchAllRule ⟨"s", 1, "", "g", "", "d", ""⟩ [⟨"get", "/a", "", ""⟩]).matchList =
        ([⟨"get", "/a", "", ""⟩] : List Endpoint).map
          (fun e => { path := some { type := "PathPrefix", value := e.url }
                      method := toUpperString e.method }) ∧
      (catchAllRule ⟨"s", 1, "", "g", "", "d", ""⟩
          [⟨"get", "/a", "", ""⟩]).matchList.length =
        ([⟨"get", "/a", "", ""⟩] : List Endpoint).length) :=
  ⟨by decide, generateRules_catchAll_last _ _ (by decide)⟩

/-- C2: the rewrite rules are exactly one per distinct non-empty `pfx`
value, in first-seen order; each has one match (path-prefix on the
literal value, no method restriction) and one URL-rewrite filter
replacing the matched value with `/`. -/
theorem generateRules_rewriteRules (cfg : Config) (E : List Endpoint) :
    (generateRules cfg E).dropLast =
      (dedupFirst ((E.map Endpoint.pfx).filter (fun p => p ≠ ""))).map (rewriteRule cfg) ∧
    (generateRules cfg E).dropLast.length =
      (dedupFirst ((E.map Endpoint.pfx).filter (fun p => p ≠ ""))).length ∧
    (dedupFirst ((E.map Endpoint.pfx).filter (fun p => p ≠ ""))).Nodup ∧
    (∀ q, q ∈ dedupFirst ((E.map Endpoint.pfx).filter (fun p => p ≠ "")) ↔
      (q ≠ "" ∧ ∃ e ∈ E, e.pfx = q)) ∧
    ∀ q, (rewriteRule cfg q).matchList =
        [{ path := some { type := "PathPrefix", value := q }, method := "" }] ∧
      (rewriteRule cfg q).filters =
        [{ type := "URLRewrite"
           urlRewrite := some { path := some { type := "ReplacePrefixMatch"
                                               replacePrefixMatch := "/" } } }] := by
  refine ⟨?_, ?_, nodup_dedupFirst _, ?_, fun q => ⟨rfl, rfl⟩⟩
  · rw [generateRules, List.dropLast_concat, firstSeenPfxs_eq_dedupFirst]
  · rw [generateRules, List.dropLast_concat, firstSeenPfxs_eq_dedupFirst, List.length_map]
  · intro q
    rw [mem_dedupFirst, List.mem_filter, List.mem_map]
    constructor
    · rintro ⟨⟨e, he, rfl⟩, hq⟩
      exact ⟨by simpa using hq, e, he, rfl⟩
    · rintro ⟨hq, e, he, rfl⟩
      exact ⟨⟨e, he, rfl⟩, by simpa using hq⟩

/-- C3 counterexample: the derivation is not collision-free — two
distinct input filenames yield the same resource name. -/
theorem resourceName_not_collisionFree :
    resourceNameOfBase "endpoints-checkout.csv" = resourceNameOfBase "checkout.csv" ∧
    "endpoints-checkout.csv" ≠ "checkout.csv" := by
  constructor <;> decide

/-- C3 amended: the derivation is a pure function of the base name
that removes every occurrence of `"endpoints-"` and replaces
underscores with hyphens, matching the documented examples; it is not
collision-free — distinct filenames can collide. -/
theorem resourceName_derivation :
    resourceNameOfBase "endpoints-checkout.csv" = "checkout" ∧
    resourceNameOfBase "endpoints-user_service.csv" = "user-service" ∧
    ∃ a b : String, a ≠ b ∧ resourceNameOfBase a = resourceNameOfBase b :=
  ⟨by decide, by decide, "endpoints-checkout.csv", "checkout.csv", by decide, by decide⟩

/-- C4: a file whose collected endpoint sequence is empty produces no
resource (and hence no rules and no output file), without error. -/
theorem emptyEndpoints_noResource (cfg : Config) (base : String) (header : List String)
    (rows : List (List String)) (h : collectEndpoints header rows = []) :
    processCSVPure cfg base header rows = none := by
  simp [processCSVPure, h]

theorem emptyEndpoints_noResource_witness :
    collectEndpoints ["method", "url"] [["GET", ""], ["# x", "/a"]] = [] ∧
    processCSVPure ⟨"s", 1, "", "g", "", "d", ""⟩ "endpoints-a.csv" ["method", "url"]
      [["GET", ""], ["# x", "/a"]] = none :=
  ⟨by decide, emptyEndpoints_noResource _ _ _ _ (by decide)⟩

/-- C5: a data row is collected iff its first field, trimmed, does not
begin with `#` and its parsed url is non-empty; collection is
row-by-row; a recognized column whose mapped index is beyond the row's
length reads as the empty string. -/
theorem collect_row_condition (header record : List String) :
    (collectEndpoints header [record] = [parseRecord header record] ↔
      (startsWithString (trimString (record.headD "")) "#" = false ∧
        (parseRecord header record).url ≠ "")) ∧
    (collectEndpoints header [record] = [parseRecord header record] ∨
      collectEndpoints header [record] = []) ∧
    (∀ rows, collectEndpoints header (record :: rows) =
      collectEndpoints header [record] ++ collectEndpoints header rows) ∧
    (∀ key idx, headerIdx header key = some idx → record.length ≤ idx →
      fieldAt header record key = "") := by
  refine ⟨?_, ?_, ?_, ?_⟩
  · rw [collect_single]
    by_cases h1 : record.length = 0 ∨ (0 < record.length ∧
        startsWithString (trimString (record.headD "")) "#" = true)
    · rw [if_pos h1]
      constructor
      · intro habs
        exact absurd habs (by simp)
      · rintro ⟨hs, hu⟩
        rcases h1 with h1 | ⟨_, h1⟩
        · have hrec : record = [] := List.length_eq_zero.mp h1
          subst hrec
          exact absurd (parseRecord_nil_url header) hu
        · rw [h1] at hs
          cases hs
    · rw [if_neg h1]
      obtain ⟨hlen, hns⟩ := not_or.mp h1
      have hpos : 0 < record.length := Nat.pos_of_ne_zero hlen
      have hS : startsWithString (trimString (record.headD "")) "#" = false := by
        rcases Bool.eq_false_or_eq_true
            (startsWithString (trimString (record.headD "")) "#") with h | h
        · exact absurd ⟨hpos, h⟩ hns
        · exact h
      by_cases h2 : (parseRecord header record).url = ""
      · rw [if_pos h2]
        exact iff_of_false (by simp) (fun hc => hc.2 h2)
      · rw [if_neg h2]
        exact iff_of_true rfl ⟨hS, h2⟩
  · rw [collect_single]
    by_cases h1 : record.length = 0 ∨ (0 < record.length ∧
        startsWithString (trimString (record.headD "")) "#" = true)
    · rw [if_pos h1]
      exact Or.inr rfl
    · by_cases h2 : (parseRecord header record).url = ""
      · rw [if_neg h1, if_pos h2]
        exact Or.inr rfl
      · rw [if_neg h1, if_neg h2]
        exact Or.inl rfl
  · intro rows
    show List.filterMap _ ([record] ++ rows) = _
    rw [List.filterMap_append]
    rfl
  · intro key idx h1 h2
    simp only [fieldAt, h1]
    rw [if_neg (by omega)]

theorem collect_row_condition_witness :
    collectEndpoints ["method", "url"] [["get", " /a "]] =
      [parseRecord ["method", "url"] ["get", " /a "]] ∧
    (parseRecord ["method", "url"] ["get", " /a "]).url = "/a" :=
  ⟨((collect_row_condition ["method", "url"] ["get", " /a "]).1).mpr
      ⟨by decide, by decide⟩,
    by decide⟩

/-- C6: every rule emitted by rule generation references exactly one
backend: the configured service name, service namespace and port, with
weight 1. -/
theorem rules_single_backend (cfg : Config) (E : List Endpoint) :
    ∀ r ∈ generateRules cfg E,
      r.backendRefs = [{ group := "", kind := "Service", name := cfg.serviceName,
                         ns := cfg.serviceNamespace, port := cfg.servicePort,
                         weight := 1 }] := by
  intro r hr
  rw [generateRules, List.mem_append] at hr
  rcases hr with hr | hr
  · obtain ⟨p, _, rfl⟩ := List.mem_map.mp hr
    rfl
  · rw [List.mem_singleton] at hr
    subst hr
    rfl

theorem rules_single_backend_witness :
    (catchAllRule ⟨"s", 1, "nsb", "g", "", "d", ""⟩ [⟨"get", "/a", "", ""⟩] ∈
      generateRules ⟨"s", 1, "nsb", "g", "", "d", ""⟩ [⟨"get", "/a", "", ""⟩]) ∧
    (catchAllRule ⟨"s", 1, "nsb", "g", "", "d", ""⟩
        [⟨"get", "/a", "", ""⟩]).backendRefs =
      [{ group := "", kind := "Service", name := "s", ns := "nsb",
         port := 1, weight := 1 }] :=
  ⟨by decide,
    rules_single_backend ⟨"s", 1, "nsb", "g", "", "d", ""⟩ [⟨"get", "/a", "", ""⟩]
      (catchAllRule ⟨"s", 1, "nsb", "g", "", "d", ""⟩ [⟨"get", "/a", "", ""⟩])
      (by decide)⟩

/-- C7: a non-empty configured hostname becomes the resource's single
hostname; an empty one leaves the hostnames slice empty, which the
serializer omits entirely. -/
theorem hostname_field (cfg : Config) (name : String) (E : List Endpoint) :
    (cfg.hostname ≠ "" → (assembleRoute cfg name E).spec.hostnames = [cfg.hostname]) ∧
    (cfg.hostname = "" →
      (assembleRoute cfg name E).spec.hostnames = [] ∧
      hostnamesOmitted (assembleRoute cfg name E) = true) := by
  constructor
  · intro h
    simp [assembleRoute, h]
  · intro h
    simp [assembleRoute, hostnamesOmitted, h]

theorem hostname_field_witness :
    (assembleRoute ⟨"s", 1, "", "g", "", "d", "api.example.com"⟩ "r" []).spec.hostnames =
      ["api.example.com"] ∧
    hostnamesOmitted (assembleRoute ⟨"s", 1, "", "g", "", "d", ""⟩ "r" []) = true :=
  ⟨(hostname_field ⟨"s", 1, "", "g", "", "d", "api.example.com"⟩ "r" []).1 (by decide),
    ((hostname_field ⟨"s", 1, "", "g", "", "d", ""⟩ "r" []).2 rfl).2⟩

/-- C8: every resource has exactly one parent reference with the fixed
gateway group and kind, the configured gateway name, and a namespace
that is the configured gateway namespace when non-empty and the
resource namespace otherwise. -/
theorem parent_reference (cfg : Config) (name : String) (E : List Endpoint) :
    ∃ pr : ParentRef,
      (assembleRoute cfg name E).spec.parentRefs = [pr] ∧
      pr.group = "gateway.networking.k8s.io" ∧
      pr.kind = "Gateway" ∧
      pr.name = cfg.gatewayName ∧
      (cfg.gatewayNamespace ≠ "" → pr.ns = cfg.gatewayNamespace) ∧
      (cfg.gatewayNamespace = "" → pr.ns = cfg.ns) := by
  refine ⟨_, rfl, rfl, rfl, rfl, ?_, ?_⟩ <;> intro h <;> simp [h]

theorem parent_reference_witness :
    ∃ pr : ParentRef,
      (assembleRoute ⟨"s", 1, "", "gw", "", "production", ""⟩ "r" []).spec.parentRefs =
        [pr] ∧
      pr.group = "gateway.networking.k8s.io" ∧ pr.kind = "Gateway" ∧
      pr.name = "gw" ∧ pr.ns = "production" := by
  obtain ⟨pr, h1, h2, h3, h4, _, h6⟩ :=
    parent_reference ⟨"s", 1, "", "gw", "", "production", ""⟩ "r" []
  exact ⟨pr, h1, h2, h3, h4, h6 rfl⟩

/-- C9: rule generation is deterministic — two runs on the same
endpoint sequence with the same configuration produce identical rule
sequences (the emission order comes from the `prefixes` slice, not
from map iteration). -/
theorem generateRules_deterministic (cfg cfg' : Config) (E : List Endpoint)
    (hcfg : cfg = cfg') (hE : ∃ e ∈ E, e.url ≠ "") :
    generateRules cfg E = generateRules cfg' E := by
  subst hcfg
  rfl

theorem generateRules_deterministic_witness :
    ((⟨"s", 1, "", "g", "", "d", ""⟩ : Config) = ⟨"s", 1, "", "g", "", "d", ""⟩) ∧
    (∃ e ∈ ([⟨"get", "/a", "", ""⟩] : List Endpoint), e.url ≠ "") ∧
    generateRules ⟨"s", 1, "", "g", "", "d", ""⟩ [⟨"get", "/a", "", ""⟩] =
      generateRules ⟨"s", 1, "", "g", "", "d", ""⟩ [⟨"get", "/a", "", ""⟩] :=
  ⟨rfl, by decide, generateRules_deterministic _ _ _ rfl (by decide)⟩

/-- C10: when a recognized column name occurs more than once in the
header, the last occurrence's position determines which field is read
for that column in every row; earlier occurrences are ignored. -/
theorem fieldAt_lastOccurrence (key : String) (A B : List String) (hcol : String)
    (hkey : normCol hcol = key) (hearlier : ∃ h ∈ A, normCol h = key)
    (hafter : ∀ h ∈ B, normCol h ≠ key) (record : List String) :
    headerIdx (A ++ hcol :: B) key = some A.length ∧
    fieldAt (A ++ hcol :: B) record key =
      (if A.length < record.length then trimString (record.getD A.length "")
       else "") := by
  have hidx : headerIdx (A ++ hcol :: B) key = some A.length := by
    rw [headerIdx, headerIdxAux_append]
    have l2 : headerIdxAux key (headerIdxAux key none 0 A) (0 + A.length) (hcol :: B) =
        headerIdxAux key
          (if normCol hcol = key then some (0 + A.length)
           else headerIdxAux key none 0 A)
          (0 + A.length + 1) B := rfl
    rw [l2, if_pos hkey, headerIdxAux_nomatch key B hafter]
    simp
  refine ⟨hidx, ?_⟩
  simp only [fieldAt, hidx]

theorem fieldAt_lastOccurrence_witness :
    normCol " URL " = "url" ∧
    headerIdx ["url", " URL ", "method"] "url" = some 1 ∧
    fieldAt ["url", " URL ", "method"] ["a", " /x ", "GET"] "url" = "/x" := by
  have h := fieldAt_lastOccurrence "url" ["url"] ["method"] " URL " (by decide)
    ⟨"url", by decide, by decide⟩ (by decide) ["a", " /x ", "GET"]
  exact ⟨by decide, h.1, h.2.trans (by decide)⟩

end Csv2HttpRoute
